import Mathlib

/-!
Verification of the page relevance scoring / selection / payload construction
core of the trigger-statement extraction pipeline.

Shallow embedding conventions:
* Python strings are modelled as Lean `String` (with `List Char` data used for
  the character-level operations); `str.lower()` is modelled character-wise by
  `Char.toLower`, and `str.count(sub)` by a greedy left-to-right
  non-overlapping counter (`pyCount`), which is exactly Python's semantics
  (including the `len + 1` result on an empty pattern).
* Python `list.sort(key=...)` is a stable sort; it is modelled by
  `List.insertionSort` with the corresponding key comparison, which is stable.
* The in-place score assignment `page_data.relevance_score = score` is made
  explicit: the scorer returns the updated record together with the returned
  score.  The selector performs no field assignment in the source, so its
  embedding is a plain function from the input list to the selected list.
* Process-wide configuration constants from `config.py` are embedded as
  definitions; the "configurable" top-K / neighbor-inclusion parameters are
  additionally exposed as explicit parameters of
  `select_relevant_pages_with`, with `select_relevant_pages` instantiating
  them at the configured defaults.
-/

/-- `pdf_processor.PageData`: extracted data for a single PDF page. -/
structure PageData where
  page_num : Int
  text : String
  tables : List String := []
  relevance_score : Int := 0
  has_tables : Bool := false
deriving DecidableEq, Repr

/-- `config.RELEVANCE_KEYWORDS`: the exact keyword list from `config.py`
(English, French, Spanish), in source order. -/
def RELEVANCE_KEYWORDS : List String := [
  "trigger", "activation", "threshold", "condition", "forecast",
  "probability", "lead time", "early action", "eap", "s-eap", "seap",
  "activated", "mechanism", "stop", "deactivate", "return period",
  "model", "alert", "warning", "preliminary",
  "déclencheur", "déclenchement", "seuil", "condition", "prévision",
  "probabilité", "délai", "action anticipée", "activé", "mécanisme",
  "arrêt", "désactiver", "période de retour", "modèle", "alerte", "avertissement",
  "disparador", "activación", "umbral", "condición", "pronóstico",
  "probabilidad", "tiempo de anticipación", "acción temprana", "activado",
  "mecanismo", "parar", "desactivar", "período de retorno", "modelo", "alerta"]

/-- `config.KEYWORD_SCORE` (points per keyword occurrence). -/
def KEYWORD_SCORE : Int := 1

/-- `config.TABLE_BONUS_SCORE` (flat bonus for pages with tables). -/
def TABLE_BONUS_SCORE : Int := 2

/-- `config.TOP_PAGES_TO_SELECT`. -/
def TOP_PAGES_TO_SELECT : Nat := 3

/-- `config.INCLUDE_NEIGHBOR_PAGES`. -/
def INCLUDE_NEIGHBOR_PAGES : Bool := true

/-- Character-wise model of Python `str.lower()`. -/
def pyLower (s : List Char) : List Char := s.map Char.toLower

/-- `beginsWith s pat` holds when `pat` is a leading segment of `s`. -/
def beginsWith : List Char → List Char → Bool
  | _, [] => true
  | [], _ :: _ => false
  | c :: cs, p :: ps => c == p && beginsWith cs ps

/-- Greedy non-overlapping substring counter.  `cntSkip pat s k` scans `s`
left to right, first skipping `k` characters; on a match it advances past the
whole match (consuming one character now and skipping `pat.length - 1` more),
exactly like Python `str.count`. -/
def cntSkip (pat : List Char) : List Char → Nat → Nat
  | [], _ => 0
  | _ :: cs, Nat.succ k => cntSkip pat cs k
  | c :: cs, 0 =>
      if beginsWith (c :: cs) pat then 1 + cntSkip pat cs (pat.length - 1)
      else cntSkip pat cs 0

/-- Model of Python `s.count(pat)`: number of non-overlapping occurrences of
`pat` in `s`, scanning greedily left to right (`len(s) + 1` when `pat` is
empty, as in Python; no keyword is empty so that case never arises below). -/
def pyCount (s pat : List Char) : Nat :=
  if pat.isEmpty then s.length + 1 else cntSkip pat s 0

/-- The search corpus built by `calculate_relevance_score` (page_selector.py
lines 34-36): lowercased `page.text`, then for each table in order a space and
the lowercased table string. -/
def fullTextOf (p : PageData) : List Char :=
  p.tables.foldl (fun acc t => acc ++ (' ' :: pyLower t.data)) (pyLower p.text.data)

/-- `page_selector.calculate_relevance_score`: sums `count * KEYWORD_SCORE`
over the keyword list (the loop of lines 39-41), adds `TABLE_BONUS_SCORE` when
`has_tables` (lines 44-45), writes the score into the page (line 47) and
returns it (line 48).  The returned pair is (updated page, returned score). -/
def calculate_relevance_score (p : PageData) : PageData × Int :=
  let full_text := fullTextOf p
  let base := RELEVANCE_KEYWORDS.foldl
    (fun s kw => s + (pyCount full_text (pyLower kw.data) : Int) * KEYWORD_SCORE) 0
  let score := if p.has_tables then base + TABLE_BONUS_SCORE else base
  ({ p with relevance_score := score }, score)

/-- `page_selector.score_all_pages`: scores every page in order. -/
def score_all_pages (pages_data : List PageData) : List PageData :=
  pages_data.map (fun p => (calculate_relevance_score p).1)

/-- Specification-side keyword total (claim C1's wording): the sum, over every
keyword in the configured list, of the number of non-overlapping
case-insensitive occurrences of that keyword in the corpus, multiplied by the
per-occurrence weight. -/
def spec_keyword_score (p : PageData) : Int :=
  (RELEVANCE_KEYWORDS.map
    (fun kw => (pyCount (fullTextOf p) (pyLower kw.data) : Int) * KEYWORD_SCORE)).sum

/-- Specification-side relevance score (claim C1's wording): the keyword total
plus the fixed table bonus added exactly once if `has_tables` is true. -/
def spec_relevance_score (p : PageData) : Int :=
  spec_keyword_score p + (if p.has_tables then TABLE_BONUS_SCORE else 0)

lemma foldl_add_eq_sum (f : String → Int) (L : List String) (a : Int) :
    L.foldl (fun s kw => s + f kw) a = a + (L.map f).sum := by
  induction L generalizing a with
  | nil => simp
  | cons hd tl ih => simp [List.foldl_cons, ih, add_assoc]

lemma calculate_relevance_score_eq_spec (p : PageData) :
    calculate_relevance_score p =
      ({ p with relevance_score := spec_relevance_score p }, spec_relevance_score p) := by
  cases h : p.has_tables <;>
    simp [calculate_relevance_score, spec_relevance_score, spec_keyword_score, h,
      foldl_add_eq_sum]

lemma spec_keyword_score_nonneg (p : PageData) : 0 ≤ spec_keyword_score p := by
  unfold spec_keyword_score
  apply List.sum_nonneg
  intro x hx
  simp only [List.mem_map] at hx
  obtain ⟨kw, _, rfl⟩ := hx
  simp [KEYWORD_SCORE]

lemma spec_relevance_score_nonneg (p : PageData) : 0 ≤ spec_relevance_score p := by
  unfold spec_relevance_score
  have h1 := spec_keyword_score_nonneg p
  have h2 : (0 : Int) ≤ (if p.has_tables then TABLE_BONUS_SCORE else 0) := by
    cases p.has_tables <;> simp [TABLE_BONUS_SCORE]
  omega

/-- C1: for every `PageData`, `calculate_relevance_score` returns, and writes
into `relevance_score`, exactly the sum over the configured keyword list of
the non-overlapping case-insensitive occurrence count of the keyword in the
corpus (lowercased text, then a space and each lowercased table in order)
times the per-occurrence weight, plus the table bonus exactly once when
`has_tables` is true; and the result is never negative. -/
theorem C1_score_is_spec_sum (p : PageData) :
    calculate_relevance_score p =
      ({ p with relevance_score := spec_relevance_score p }, spec_relevance_score p)
    ∧ 0 ≤ (calculate_relevance_score p).2 := by
  refine ⟨calculate_relevance_score_eq_spec p, ?_⟩
  rw [calculate_relevance_score_eq_spec p]
  exact spec_relevance_score_nonneg p

/-- Key relation of `scored_pages.sort(key=lambda p: p.relevance_score,
reverse=True)` (page_selector.py line 91): `a` may come before `b` iff
`a.relevance_score ≥ b.relevance_score`; a stable sort with this relation is
exactly Python's stable descending sort. -/
def scoreGeR (a b : PageData) : Prop := b.relevance_score ≤ a.relevance_score

instance : DecidableRel scoreGeR :=
  fun a b => Int.decLe b.relevance_score a.relevance_score

instance : IsTotal PageData scoreGeR :=
  ⟨fun a b => Int.le_total b.relevance_score a.relevance_score⟩

instance : IsTrans PageData scoreGeR :=
  ⟨fun _ _ _ h1 h2 => le_trans h2 h1⟩

/-- Key relation of `selected_pages.sort(key=lambda p: p.page_num)`
(page_selector.py line 113). -/
def pageLeR (a b : PageData) : Prop := a.page_num ≤ b.page_num

instance : DecidableRel pageLeR :=
  fun a b => Int.decLe a.page_num b.page_num

instance : IsTotal PageData pageLeR :=
  ⟨fun a b => Int.le_total a.page_num b.page_num⟩

instance : IsTrans PageData pageLeR :=
  ⟨fun _ _ _ h1 h2 => le_trans h1 h2⟩

/-- The page numbers contributed by one top page (page_selector.py lines
100-109): its own number, then its predecessor when neighbor inclusion is on
and `page_num > 1`, then its successor when neighbor inclusion is on and
`page_num < total_pages`. -/
def neighborNums (includeNeighbors : Bool) (total : Int) (p : PageData) : List Int :=
  p.page_num ::
    ((if includeNeighbors = true ∧ 1 < p.page_num then [p.page_num - 1] else []) ++
     (if includeNeighbors = true ∧ p.page_num < total then [p.page_num + 1] else []))

/-- `page_selector.select_relevant_pages`, with the process-wide configuration
constants `TOP_PAGES_TO_SELECT` and `INCLUDE_NEIGHBOR_PAGES` exposed as
explicit parameters: filter to positive scores, return `[]` when none, stable
sort by score descending, take the top `topK`, collect the selected page
numbers with clamped neighbors (the Python set is modelled by a number list
used only through membership), pick the matching pages from the input and
sort them by page number. -/
def select_relevant_pages_with (topK : Nat) (includeNeighbors : Bool)
    (pages_data : List PageData) : List PageData :=
  let scored_pages := pages_data.filter (fun p => decide (0 < p.relevance_score))
  if scored_pages.isEmpty then []
  else
    let sorted := List.insertionSort scoreGeR scored_pages
    let top_pages := sorted.take topK
    let total_pages : Int := (pages_data.length : Int)
    let nums := top_pages.flatMap (neighborNums includeNeighbors total_pages)
    let selected_pages := pages_data.filter (fun p => nums.contains p.page_num)
    List.insertionSort pageLeR selected_pages

/-- `page_selector.select_relevant_pages` at the configured defaults
(`TOP_PAGES_TO_SELECT = 3`, `INCLUDE_NEIGHBOR_PAGES = true`). -/
def select_relevant_pages : List PageData → List PageData :=
  select_relevant_pages_with TOP_PAGES_TO_SELECT INCLUDE_NEIGHBOR_PAGES

lemma mem_of_mem_select {topK : Nat} {b : Bool} {ps : List PageData} {q : PageData}
    (hq : q ∈ select_relevant_pages_with topK b ps) : q ∈ ps := by
  simp only [select_relevant_pages_with] at hq
  split at hq
  · simp at hq
  · have h1 := (List.perm_insertionSort pageLeR _).mem_iff.mp hq
    exact (List.mem_filter.mp h1).1

/-- C8: `select_relevant_pages` never alters a page: every page of the output
is literally one of the input pages, every field intact.  (The source performs
no attribute assignment in this function — the only statements are fresh-list
construction, sorting of the fresh lists, and set insertion — so its embedding
is a pure function of the input list, and the input sequence itself is
untouched by construction.) -/
theorem C8_select_preserves_pages (ps : List PageData) (q : PageData)
    (hq : q ∈ select_relevant_pages ps) : q ∈ ps :=
  mem_of_mem_select hq

/-- Witness for C8 at a concrete input. -/
theorem C8_select_preserves_pages_witness :
    (⟨1, "trigger", [], 5, false⟩ : PageData) ∈
        select_relevant_pages [⟨1, "trigger", [], 5, false⟩]
      ∧ (⟨1, "trigger", [], 5, false⟩ : PageData) ∈ [(⟨1, "trigger", [], 5, false⟩ : PageData)] :=
  ⟨by decide, C8_select_preserves_pages [⟨1, "trigger", [], 5, false⟩]
      ⟨1, "trigger", [], 5, false⟩ (by decide)⟩

/-- C7: when no page has a positive stored relevance score,
`select_relevant_pages` returns the empty list — a normal return value of the
total selection function, not an exception. -/
theorem C7_no_positive_scores_empty (ps : List PageData)
    (h : ∀ p ∈ ps, ¬ 0 < p.relevance_score) :
    select_relevant_pages ps = [] := by
  unfold select_relevant_pages
  simp only [select_relevant_pages_with]
  have hf : ps.filter (fun p => decide (0 < p.relevance_score)) = [] :=
    List.filter_eq_nil_iff.mpr (by intro p hp; simpa using h p hp)
  simp [hf]

/-- Witness for C7 at a concrete input. -/
theorem C7_no_positive_scores_empty_witness :
    (∀ p ∈ [(⟨1, "x", [], 0, false⟩ : PageData), ⟨2, "y", [], 0, true⟩],
        ¬ 0 < p.relevance_score)
      ∧ select_relevant_pages [⟨1, "x", [], 0, false⟩, ⟨2, "y", [], 0, true⟩] = [] :=
  ⟨by decide, C7_no_positive_scores_empty
    [⟨1, "x", [], 0, false⟩, ⟨2, "y", [], 0, true⟩] (by decide)⟩

lemma pairwise_lt_sort_filter (ps : List PageData) (f : PageData → Bool)
    (hnd : (ps.map (fun p => p.page_num)).Nodup) :
    (List.insertionSort pageLeR (ps.filter f)).Pairwise
      (fun a c => a.page_num < c.page_num) := by
  have hsorted : (List.insertionSort pageLeR (ps.filter f)).Pairwise pageLeR :=
    List.sorted_insertionSort pageLeR _
  have hperm : List.Perm (List.insertionSort pageLeR (ps.filter f)) (ps.filter f) :=
    List.perm_insertionSort pageLeR _
  have hnd2 : ((ps.filter f).map (fun p => p.page_num)).Nodup :=
    hnd.sublist ((List.filter_sublist ps).map _)
  have hnd3 : ((List.insertionSort pageLeR (ps.filter f)).map (fun p => p.page_num)).Nodup :=
    ((hperm.map _).nodup_iff).mpr hnd2
  have hne : (List.insertionSort pageLeR (ps.filter f)).Pairwise
      (fun a c => a.page_num ≠ c.page_num) := by
    have := List.pairwise_map.mp hnd3
    exact this
  exact (hsorted.and hne).imp (fun h => lt_of_le_of_ne h.1 h.2)

/-- C2: for an input whose page numbers are distinct and lie in `[1, N]`
(`N` = number of pages), the selection is a subset of the input, its page
numbers are strictly ascending (hence no page appears twice), and every
selected page number stays within `[1, N]` — neighbor expansion never
escapes the document. -/
theorem C2_selection_subset_sorted_bounded (ps : List PageData)
    (hnd : (ps.map (fun p => p.page_num)).Nodup)
    (hrange : ∀ p ∈ ps, 1 ≤ p.page_num ∧ p.page_num ≤ (ps.length : Int)) :
    (∀ q ∈ select_relevant_pages ps, q ∈ ps)
    ∧ (select_relevant_pages ps).Pairwise (fun a c => a.page_num < c.page_num)
    ∧ (∀ q ∈ select_relevant_pages ps, 1 ≤ q.page_num ∧ q.page_num ≤ (ps.length : Int)) := by
  refine ⟨fun q hq => mem_of_mem_select hq, ?_, fun q hq => hrange q (mem_of_mem_select hq)⟩
  unfold select_relevant_pages
  simp only [select_relevant_pages_with]
  split
  · exact List.Pairwise.nil
  · exact pairwise_lt_sort_filter ps _ hnd

/-- Witness for C2 at a concrete input (three pages, a positive score on page
3 whose neighbor expansion touches the document boundary). -/
theorem C2_selection_subset_sorted_bounded_witness :
    (([(⟨1, "", [], 0, false⟩ : PageData), ⟨2, "", [], 0, false⟩,
        ⟨3, "trigger", [], 7, false⟩].map (fun p => p.page_num)).Nodup
      ∧ (∀ p ∈ [(⟨1, "", [], 0, false⟩ : PageData), ⟨2, "", [], 0, false⟩,
          ⟨3, "trigger", [], 7, false⟩], 1 ≤ p.page_num ∧ p.page_num ≤
            (([(⟨1, "", [], 0, false⟩ : PageData), ⟨2, "", [], 0, false⟩,
              ⟨3, "trigger", [], 7, false⟩].length : Int))))
    ∧ ((∀ q ∈ select_relevant_pages [(⟨1, "", [], 0, false⟩ : PageData),
          ⟨2, "", [], 0, false⟩, ⟨3, "trigger", [], 7, false⟩],
          q ∈ [(⟨1, "", [], 0, false⟩ : PageData), ⟨2, "", [], 0, false⟩,
            ⟨3, "trigger", [], 7, false⟩])
      ∧ (select_relevant_pages [(⟨1, "", [], 0, false⟩ : PageData),
          ⟨2, "", [], 0, false⟩, ⟨3, "trigger", [], 7, false⟩]).Pairwise
            (fun a c => a.page_num < c.page_num)
      ∧ (∀ q ∈ select_relevant_pages [(⟨1, "", [], 0, false⟩ : PageData),
          ⟨2, "", [], 0, false⟩, ⟨3, "trigger", [], 7, false⟩],
          1 ≤ q.page_num ∧ q.page_num ≤
            (([(⟨1, "", [], 0, false⟩ : PageData), ⟨2, "", [], 0, false⟩,
              ⟨3, "trigger", [], 7, false⟩].length : Int)))) :=
  ⟨⟨by decide, by decide⟩,
    C2_selection_subset_sorted_bounded
      [⟨1, "", [], 0, false⟩, ⟨2, "", [], 0, false⟩, ⟨3, "trigger", [], 7, false⟩]
      (by decide) (by decide)⟩

lemma filter_orderedInsert_eq_class (s : Int) (a : PageData) (ha : a.relevance_score = s) :
    ∀ l : List PageData,
      (List.orderedInsert scoreGeR a l).filter (fun p => p.relevance_score == s)
        = a :: l.filter (fun p => p.relevance_score == s)
  | [] => by simp [List.orderedInsert, ha]
  | b :: bs => by
      by_cases hr : scoreGeR a b
      · simp [List.orderedInsert, hr, ha]
      · have hb : ¬ (b.relevance_score == s) = true := by
          simp only [beq_iff_eq]
          intro hbs
          exact hr (by simp [scoreGeR, hbs, ha])
        simp [List.orderedInsert, hr, List.filter_cons, hb,
          filter_orderedInsert_eq_class s a ha bs]

lemma filter_orderedInsert_ne_class (s : Int) (a : PageData) (ha : ¬ a.relevance_score = s) :
    ∀ l : List PageData,
      (List.orderedInsert scoreGeR a l).filter (fun p => p.relevance_score == s)
        = l.filter (fun p => p.relevance_score == s)
  | [] => by simp [List.orderedInsert, ha]
  | b :: bs => by
      by_cases hr : scoreGeR a b
      · simp [List.orderedInsert, hr, List.filter_cons, ha]
      · simp [List.orderedInsert, hr, List.filter_cons,
          filter_orderedInsert_ne_class s a ha bs]

lemma filter_insertionSort_score (s : Int) :
    ∀ ps : List PageData,
      (List.insertionSort scoreGeR ps).filter (fun p => p.relevance_score == s)
        = ps.filter (fun p => p.relevance_score == s)
  | [] => rfl
  | a :: l => by
      have hstep : List.insertionSort scoreGeR (a :: l)
          = List.orderedInsert scoreGeR a (List.insertionSort scoreGeR l) := rfl
      by_cases ha : a.relevance_score = s
      · rw [hstep, filter_orderedInsert_eq_class s a ha, filter_insertionSort_score s l]
        simp [List.filter_cons, ha]
      · rw [hstep, filter_orderedInsert_ne_class s a ha, filter_insertionSort_score s l]
        simp [List.filter_cons, ha]

/-- C5: the score-descending ranking used by `select_relevant_pages` (the
stable sort `List.insertionSort scoreGeR`, the embedding of
`scored_pages.sort(key=..., reverse=True)`) is stable: for every score value,
the pages carrying that score appear in the ranking exactly in their original
relative order.  Consequently, when a tie straddles the top-K cut, the pages
earlier in the (page-number ascending) input are taken: with four pages of
equal score and `TOP_PAGES_TO_SELECT = 3`, pages 1-3 make the cut and page 4
does not. -/
theorem C5_stable_ranking :
    (∀ (ps : List PageData) (s : Int),
      (List.insertionSort scoreGeR ps).filter (fun p => p.relevance_score == s)
        = ps.filter (fun p => p.relevance_score == s))
    ∧ (List.insertionSort scoreGeR
        [⟨1, "", [], 3, false⟩, ⟨2, "", [], 3, false⟩, ⟨3, "", [], 3, false⟩,
          ⟨4, "", [], 3, false⟩]).take TOP_PAGES_TO_SELECT
        = [⟨1, "", [], 3, false⟩, ⟨2, "", [], 3, false⟩, ⟨3, "", [], 3, false⟩] :=
  ⟨fun ps s => filter_insertionSort_score s ps, by decide⟩

/-- C4: the end-to-end scenario.  Five pages, where page 3 contains
"threshold" twice and has a table (score 2×1 + 2 = 4), page 1 contains
"forecast" once (score 1) and pages 2, 4, 5 score 0.  With the configurable
top-K parameter instantiated at K = 1 and neighbor inclusion enabled, the
selector returns exactly pages 2, 3, 4 in that order (page 3 as the top page,
2 and 4 as its neighbors); page 1, despite its positive score, is not in the
output because it falls outside the top-K cut. -/
theorem C4_end_to_end_scenario :
    select_relevant_pages_with 1 true (score_all_pages
      [⟨1, "forecast", [], 0, false⟩, ⟨2, "", [], 0, false⟩,
        ⟨3, "threshold threshold", ["| X |"], 0, true⟩,
        ⟨4, "", [], 0, false⟩, ⟨5, "", [], 0, false⟩])
      = [⟨2, "", [], 0, false⟩, ⟨3, "threshold threshold", ["| X |"], 4, true⟩,
          ⟨4, "", [], 0, false⟩] := by decide

/-- C9: the table bonus is gated on the `has_tables` flag, not on the
`tables` list: whenever `has_tables = false` the score is exactly the keyword
total over the corpus (which does include the table strings), with no bonus.
In particular a `PageData` with a non-empty `tables` list but
`has_tables = false` — constructible, since the field defaults to `false`
independently of `tables` — still gets its table keyword occurrences counted
(the concrete page scores 1 from the keyword inside its only table) but not
the bonus (which would have made the score 3). -/
theorem C9_bonus_gated_on_flag :
    (∀ p : PageData, p.has_tables = false →
      (calculate_relevance_score p).2 = spec_keyword_score p)
    ∧ (calculate_relevance_score ⟨1, "", ["trigger"], 0, false⟩).2 = 1 := by
  refine ⟨?_, by decide⟩
  intro p hp
  rw [calculate_relevance_score_eq_spec p]
  show spec_relevance_score p = _
  unfold spec_relevance_score
  simp [hp]

/-- Witness for C9 at a concrete input. -/
theorem C9_bonus_gated_on_flag_witness :
    (calculate_relevance_score ⟨7, "alert", ["| umbral |"], 0, false⟩).2
      = spec_keyword_score ⟨7, "alert", ["| umbral |"], 0, false⟩ :=
  C9_bonus_gated_on_flag.1 ⟨7, "alert", ["| umbral |"], 0, false⟩ rfl

lemma sum_map_split (L : List String) (f : String → Int) (q : String → Bool) :
    (L.map f).sum = ((L.filter q).map f).sum
      + ((L.filter (fun k => !(q k))).map f).sum := by
  induction L with
  | nil => simp
  | cons hd tl ih =>
      by_cases h : q hd = true <;> simp [List.filter_cons, h, ih] <;> ring

/-- C10: the keyword list contains the term "condition" exactly twice (once
in its English block, once in its French block), so for every page the score
decomposes as twice the per-occurrence weight times the number of
non-overlapping occurrences of "condition" in the corpus, plus the
contribution of the remaining keywords and the table bonus; in particular a
page whose text is exactly "condition" (no tables) scores 2. -/
theorem C10_condition_listed_twice :
    RELEVANCE_KEYWORDS.count "condition" = 2
    ∧ (∀ p : PageData, (calculate_relevance_score p).2
        = 2 * ((pyCount (fullTextOf p) (pyLower ("condition".data)) : Int) * KEYWORD_SCORE)
          + ((((RELEVANCE_KEYWORDS.filter (fun k => !(k == "condition"))).map
              (fun kw => (pyCount (fullTextOf p) (pyLower kw.data) : Int) * KEYWORD_SCORE)).sum)
            + (if p.has_tables then TABLE_BONUS_SCORE else 0)))
    ∧ (calculate_relevance_score ⟨1, "condition", [], 0, false⟩).2 = 2 := by
  refine ⟨by decide, ?_, by decide⟩
  intro p
  rw [calculate_relevance_score_eq_spec p]
  show spec_relevance_score p = _
  unfold spec_relevance_score spec_keyword_score
  rw [sum_map_split RELEVANCE_KEYWORDS _ (fun k => k == "condition")]
  have hfil : RELEVANCE_KEYWORDS.filter (fun k => k == "condition")
      = ["condition", "condition"] := by decide
  rw [hfil]
  simp only [List.map_cons, List.map_nil, List.sum_cons, List.sum_nil]
  ring

/-- The ASCII whitespace characters removed by Python `str.strip()`. -/
def isPySpace (c : Char) : Bool :=
  c == ' ' || c == '\t' || c == '\n' || c == '\r' || c == '\x0b' || c == '\x0c'

/-- Model of Python `str.strip()` (trim surrounding whitespace). -/
def pyStrip (s : List Char) : List Char :=
  ((s.dropWhile isPySpace).reverse.dropWhile isPySpace).reverse

/-- The parts appended for one page by `payload_builder.construct_payload`
(lines 30-45): the page header; when the page has one or more tables, the
tables marker and then each table followed by a newline; when the stripped
text is non-empty, the text marker, the stripped text, and a newline. -/
def pagePayloadParts (page : PageData) : List (List Char) :=
  [("\n--- PAGE " ++ toString page.page_num ++ " ---\n").data]
  ++ (if page.tables.isEmpty then []
      else ("\n[TABLES]\n".data :: page.tables.flatMap (fun t => [t.data, ['\n']])))
  ++ (if (pyStrip page.text.data).isEmpty then []
      else ["\n[TEXT]\n".data, pyStrip page.text.data, ['\n']])

/-- `payload_builder.construct_payload`: `""` for an empty selection (line
25-26), otherwise the `"".join` of every page's parts in order (line 47). -/
def construct_payload (selected_pages : List PageData) : String :=
  if selected_pages.isEmpty then ""
  else ⟨(selected_pages.flatMap pagePayloadParts).flatten⟩

/-- Per-page payload text following claim C3's words literally: the header,
then iff tables exist the tables marker and each table followed by a newline,
then iff the stripped text is non-empty the text marker followed by the
trimmed text (and nothing else). -/
def spec_pagePart (page : PageData) : List Char :=
  ("\n--- PAGE " ++ toString page.page_num ++ " ---\n").data
  ++ (if page.tables.isEmpty then []
      else "\n[TABLES]\n".data ++ page.tables.flatMap (fun t => t.data ++ ['\n']))
  ++ (if (pyStrip page.text.data).isEmpty then []
      else "\n[TEXT]\n".data ++ pyStrip page.text.data)

/-- The payload as claim C3 words it: all per-page parts concatenated with no
additional separators; the empty sequence yields the empty string. -/
def spec_construct_payload (selected_pages : List PageData) : String :=
  ⟨(selected_pages.map spec_pagePart).flatten⟩

/-- Per-page payload text of the amended claim: as `spec_pagePart`, except
that the trimmed text is also followed by a newline (this is what the code
emits). -/
def spec_pagePart_amended (page : PageData) : List Char :=
  ("\n--- PAGE " ++ toString page.page_num ++ " ---\n").data
  ++ (if page.tables.isEmpty then []
      else "\n[TABLES]\n".data ++ page.tables.flatMap (fun t => t.data ++ ['\n']))
  ++ (if (pyStrip page.text.data).isEmpty then []
      else "\n[TEXT]\n".data ++ pyStrip page.text.data ++ ['\n'])

/-- The payload of the amended claim C3. -/
def spec_construct_payload_amended (selected_pages : List PageData) : String :=
  ⟨(selected_pages.map spec_pagePart_amended).flatten⟩

lemma tables_parts_flatten (ts : List String) :
    (ts.flatMap (fun t => [t.data, ['\n']])).flatten
      = ts.flatMap (fun t => t.data ++ ['\n']) := by
  induction ts with
  | nil => rfl
  | cons h t ih => simp [ih]

lemma pagePayloadParts_flatten (page : PageData) :
    (pagePayloadParts page).flatten = spec_pagePart_amended page := by
  unfold pagePayloadParts spec_pagePart_amended
  by_cases h1 : page.tables.isEmpty <;>
    by_cases h2 : (pyStrip page.text.data).isEmpty <;>
      simp [h1, h2, tables_parts_flatten, List.append_assoc]

lemma flatMap_parts_eq (sel : List PageData) :
    (sel.flatMap pagePayloadParts).flatten = (sel.map spec_pagePart_amended).flatten := by
  induction sel with
  | nil => rfl
  | cons a l ih => simp [List.flatten_append, ih, pagePayloadParts_flatten]

lemma construct_payload_eq_amended (sel : List PageData) :
    construct_payload sel = spec_construct_payload_amended sel := by
  unfold construct_payload spec_construct_payload_amended
  cases sel with
  | nil => rfl
  | cons a l =>
      simp only [List.isEmpty_cons, Bool.false_eq_true, if_false]
      exact congrArg String.mk (flatMap_parts_eq (a :: l))

/-- Counterexample to C3 as stated: on a single page with non-blank text the
code's payload carries a newline after the trimmed text, so it differs from
the payload described by the claim (text-section marker followed by the
trimmed text and nothing more). -/
theorem C3_trailing_newline_counterexample :
    construct_payload [⟨1, "a", [], 0, false⟩]
      ≠ spec_construct_payload [⟨1, "a", [], 0, false⟩] := by decide

/-- C3 (amended): `construct_payload` emits, for each page in order, the
page-delimiter header with the page number; iff the page has tables, the
table-section marker and each table's text in extraction order each followed
by a newline; iff the page's text is non-blank after trimming, the
text-section marker followed by the trimmed text *followed by a newline*;
all concatenated with no further separators, and the empty input yields the
empty string.  The concrete round-trip instance of the claim holds: the
payload of pages 2 and 3 contains the page-2 text section with the literal
text and the page-3 tables section with the literal table markup, in
page-number order. -/
theorem C3_payload_structure :
    (∀ sel : List PageData, construct_payload sel = spec_construct_payload_amended sel)
    ∧ construct_payload [⟨2, "Flood threshold 40%", [], 0, false⟩,
        ⟨3, "", ["| A | B |\n| --- | --- |\n| 1 | 2 |"], 0, true⟩]
      = "\n--- PAGE 2 ---\n\n[TEXT]\nFlood threshold 40%\n\n--- PAGE 3 ---\n\n[TABLES]\n| A | B |\n| --- | --- |\n| 1 | 2 |\n" :=
  ⟨construct_payload_eq_amended, by decide⟩

lemma beginsWith_nil (s : List Char) : beginsWith s [] = true := by
  cases s <;> rfl

lemma beginsWith_append (s t pat : List Char) (h : beginsWith s pat = true) :
    beginsWith (s ++ t) pat = true := by
  induction pat generalizing s with
  | nil => exact beginsWith_nil _
  | cons p ps ih =>
      cases s with
      | nil => simp [beginsWith] at h
      | cons c cs =>
          simp [beginsWith] at h ⊢
          exact ⟨h.1, ih cs h.2⟩

lemma beginsWith_length_le (s pat : List Char) (h : beginsWith s pat = true) :
    pat.length ≤ s.length := by
  induction pat generalizing s with
  | nil => simp
  | cons p ps ih =>
      cases s with
      | nil => simp [beginsWith] at h
      | cons c cs =>
          simp only [beginsWith, Bool.and_eq_true] at h
          have := ih cs h.2
          simp only [List.length_cons]
          omega

lemma beginsWith_of_append (s t pat : List Char) (hlen : pat.length ≤ s.length)
    (h : beginsWith (s ++ t) pat = true) : beginsWith s pat = true := by
  induction pat generalizing s with
  | nil => exact beginsWith_nil _
  | cons p ps ih =>
      cases s with
      | nil => simp at hlen
      | cons c cs =>
          simp only [List.cons_append, beginsWith, Bool.and_eq_true] at h ⊢
          refine ⟨h.1, ih cs ?_ h.2⟩
          simp only [List.length_cons] at hlen
          omega

lemma beginsWith_self (pat : List Char) : beginsWith pat pat = true := by
  induction pat with
  | nil => rfl
  | cons p ps ih => simp [beginsWith, ih]

lemma cntSkip_eq_zero_of_short (pat : List Char) (s : List Char) :
    ∀ k : Nat, s.length < pat.length → cntSkip pat s k = 0 := by
  induction s with
  | nil => intro k _; rfl
  | cons c cs ih =>
      intro k h
      have hcs : cs.length < pat.length := by
        simp only [List.length_cons] at h; omega
      cases k with
      | succ k => exact ih k hcs
      | zero =>
          have hb : ¬ beginsWith (c :: cs) pat = true := by
            intro hb
            exact absurd (beginsWith_length_le _ _ hb) (by omega)
          simp only [cntSkip, if_neg hb]
          exact ih 0 hcs

lemma cntSkip_le_append (pat t : List Char) :
    ∀ (s : List Char) (k : Nat), cntSkip pat s k ≤ cntSkip pat (s ++ t) k := by
  intro s
  induction s with
  | nil => intro k; exact Nat.zero_le _
  | cons c cs ih =>
      intro k
      cases k with
      | succ k =>
          simp only [List.cons_append, cntSkip, List.append_eq]
          exact ih k
      | zero =>
          simp only [List.cons_append, cntSkip, List.append_eq]
          by_cases hb : beginsWith (c :: cs) pat = true
          · have hb2 : beginsWith (c :: (cs ++ t)) pat = true := by
              have := beginsWith_append (c :: cs) t pat hb
              simpa using this
            rw [if_pos hb, if_pos hb2]
            exact Nat.add_le_add_left (ih (pat.length - 1)) 1
          · rw [if_neg hb]
            by_cases hb2 : beginsWith (c :: (cs ++ t)) pat = true
            · rw [if_pos hb2]
              have hlen : (c :: cs).length < pat.length := by
                by_contra hcon
                push_neg at hcon
                exact hb (beginsWith_of_append (c :: cs) t pat hcon (by simpa using hb2))
              have h0 : cntSkip pat cs 0 = 0 :=
                cntSkip_eq_zero_of_short pat cs 0
                  (by simp only [List.length_cons] at hlen; omega)
              omega
            · rw [if_neg hb2]
              exact ih 0

lemma cntSkip_append_self (pat : List Char) (hp : pat ≠ []) :
    ∀ (s : List Char) (k : Nat), k ≤ s.length →
      cntSkip pat s k + 1 ≤ cntSkip pat (s ++ pat) k := by
  intro s
  induction s with
  | nil =>
      intro k hk
      have hk0 : k = 0 := Nat.le_zero.mp hk
      subst hk0
      obtain ⟨p, ps, rfl⟩ : ∃ p ps, pat = p :: ps := by
        cases pat with
        | nil => exact absurd rfl hp
        | cons p ps => exact ⟨p, ps, rfl⟩
      simp only [List.nil_append, cntSkip]
      rw [if_pos (beginsWith_self _)]
      omega
  | cons c cs ih =>
      intro k hk
      cases k with
      | succ k =>
          simp only [List.cons_append, cntSkip, List.append_eq]
          exact ih k (by simp only [List.length_cons] at hk; omega)
      | zero =>
          simp only [List.cons_append, cntSkip, List.append_eq]
          by_cases hb : beginsWith (c :: cs) pat = true
          · have hb2 : beginsWith (c :: (cs ++ pat)) pat = true := by
              have := beginsWith_append (c :: cs) pat pat hb
              simpa using this
            rw [if_pos hb, if_pos hb2]
            have hlen : pat.length - 1 ≤ cs.length := by
              have := beginsWith_length_le _ _ hb
              simp only [List.length_cons] at this
              omega
            have := ih (pat.length - 1) hlen
            omega
          · rw [if_neg hb]
            by_cases hb2 : beginsWith (c :: (cs ++ pat)) pat = true
            · rw [if_pos hb2]
              have hlen : (c :: cs).length < pat.length := by
                by_contra hcon
                push_neg at hcon
                exact hb (beginsWith_of_append (c :: cs) pat pat hcon (by simpa using hb2))
              have h0 : cntSkip pat cs 0 = 0 :=
                cntSkip_eq_zero_of_short pat cs 0
                  (by simp only [List.length_cons] at hlen; omega)
              omega
            · rw [if_neg hb2]
              exact ih 0 (Nat.zero_le _)

lemma pyCount_le_append (s t pat : List Char) (hp : pat ≠ []) :
    pyCount s pat ≤ pyCount (s ++ t) pat := by
  have hpe : ¬ (pat.isEmpty = true) := by simp [List.isEmpty_iff, hp]
  unfold pyCount
  rw [if_neg hpe, if_neg hpe]
  exact cntSkip_le_append pat t s 0

lemma pyCount_append_self (s pat : List Char) (hp : pat ≠ []) :
    pyCount s pat + 1 ≤ pyCount (s ++ pat) pat := by
  have hpe : ¬ (pat.isEmpty = true) := by simp [List.isEmpty_iff, hp]
  unfold pyCount
  rw [if_neg hpe, if_neg hpe]
  exact cntSkip_append_self pat hp s 0 (Nat.zero_le _)

lemma strData_append (a b : String) : (a ++ b).data = a.data ++ b.data := by
  cases a
  cases b
  rfl

lemma pyLower_append (a b : List Char) : pyLower (a ++ b) = pyLower a ++ pyLower b := by
  simp [pyLower]

lemma pyLower_ne_nil (l : List Char) (h : l ≠ []) : pyLower l ≠ [] := by
  simp [pyLower, h]

lemma keywords_nonempty : ∀ kw ∈ RELEVANCE_KEYWORDS, kw.data ≠ [] := by decide

lemma fullTextOf_no_tables (p : PageData) (h : p.tables = []) :
    fullTextOf p = pyLower p.text.data := by
  simp [fullTextOf, h]

lemma spec_keyword_score_append_kw (p : PageData) (kw : String) (ht : p.tables = [])
    (hkw : kw ∈ RELEVANCE_KEYWORDS) :
    spec_keyword_score p + KEYWORD_SCORE
      ≤ spec_keyword_score { p with text := p.text ++ kw } := by
  have hcorp : fullTextOf { p with text := p.text ++ kw }
      = fullTextOf p ++ pyLower kw.data := by
    have ht2 : ({ p with text := p.text ++ kw } : PageData).tables = [] := ht
    rw [fullTextOf_no_tables _ ht2, fullTextOf_no_tables p ht]
    show pyLower (p.text ++ kw).data = _
    rw [strData_append, pyLower_append]
  have hknil : pyLower kw.data ≠ [] := pyLower_ne_nil _ (keywords_nonempty kw hkw)
  unfold spec_keyword_score
  rw [hcorp]
  obtain ⟨l1, l2, hsplit⟩ := List.append_of_mem hkw
  rw [hsplit]
  simp only [List.map_append, List.map_cons, List.sum_append, List.sum_cons,
    KEYWORD_SCORE, mul_one]
  have hmem : ∀ k : String, k ∈ l1 ∨ k ∈ l2 → k.data ≠ [] := by
    intro k hk
    refine keywords_nonempty k ?_
    rw [hsplit]
    rcases hk with hk | hk
    · exact List.mem_append_left _ hk
    · exact List.mem_append_right _ (List.mem_cons_of_mem _ hk)
  have h1 : (l1.map fun k => ((pyCount (fullTextOf p) (pyLower k.data) : Int))).sum
      ≤ (l1.map fun k =>
          ((pyCount (fullTextOf p ++ pyLower kw.data) (pyLower k.data) : Int))).sum := by
    apply List.sum_le_sum
    intro k hk
    exact_mod_cast pyCount_le_append _ _ _ (pyLower_ne_nil _ (hmem k (Or.inl hk)))
  have h2 : (l2.map fun k => ((pyCount (fullTextOf p) (pyLower k.data) : Int))).sum
      ≤ (l2.map fun k =>
          ((pyCount (fullTextOf p ++ pyLower kw.data) (pyLower k.data) : Int))).sum := by
    apply List.sum_le_sum
    intro k hk
    exact_mod_cast pyCount_le_append _ _ _ (pyLower_ne_nil _ (hmem k (Or.inr hk)))
  have h3 : (pyCount (fullTextOf p) (pyLower kw.data) : Int) + 1
      ≤ (pyCount (fullTextOf p ++ pyLower kw.data) (pyLower kw.data) : Int) := by
    exact_mod_cast pyCount_append_self _ _ hknil
  omega

/-- Counterexample to C6 as stated: the keyword "condition" appears in the
configured list, the page with empty text has zero occurrences of it, and
putting exactly one occurrence of it into the text (so that the corpus count
rises by exactly one) raises the score by 2, not by the per-occurrence
weight 1 — "condition" is in the list twice, so each occurrence is counted
twice. -/
theorem C6_exact_weight_counterexample :
    "condition" ∈ RELEVANCE_KEYWORDS
    ∧ pyCount (fullTextOf ⟨1, "condition", [], 0, false⟩) (pyLower ("condition".data))
        = pyCount (fullTextOf ⟨1, "", [], 0, false⟩) (pyLower ("condition".data)) + 1
    ∧ (calculate_relevance_score ⟨1, "condition", [], 0, false⟩).2
        ≠ (calculate_relevance_score ⟨1, "", [], 0, false⟩).2 + KEYWORD_SCORE := by
  exact ⟨by decide, by decide, by decide⟩

/-- C6 (amended): for a page with no tables, appending one occurrence of any
configured keyword to the page's text increases the computed relevance score
by *at least* the per-occurrence weight (strictly more is possible: a keyword
can occur twice in the configured list, as "condition" does, and adding one
keyword can create occurrences of other keywords). -/
theorem C6_append_keyword_increases_score (p : PageData) (kw : String)
    (ht : p.tables = []) (hkw : kw ∈ RELEVANCE_KEYWORDS) :
    (calculate_relevance_score p).2 + KEYWORD_SCORE
      ≤ (calculate_relevance_score { p with text := p.text ++ kw }).2 := by
  rw [calculate_relevance_score_eq_spec p,
    calculate_relevance_score_eq_spec { p with text := p.text ++ kw }]
  show spec_relevance_score p + KEYWORD_SCORE
    ≤ spec_relevance_score { p with text := p.text ++ kw }
  unfold spec_relevance_score
  have hbonus : (if ({ p with text := p.text ++ kw } : PageData).has_tables
      then TABLE_BONUS_SCORE else 0) = (if p.has_tables then TABLE_BONUS_SCORE else 0) := rfl
  rw [hbonus]
  have := spec_keyword_score_append_kw p kw ht hkw
  omega

/-- Witness for the amended C6 at a concrete input. -/
theorem C6_append_keyword_increases_score_witness :
    ((⟨1, "", [], 0, false⟩ : PageData).tables = []
      ∧ "trigger" ∈ RELEVANCE_KEYWORDS)
    ∧ (calculate_relevance_score (⟨1, "", [], 0, false⟩ : PageData)).2 + KEYWORD_SCORE
        ≤ (calculate_relevance_score
            { (⟨1, "", [], 0, false⟩ : PageData) with
                text := (⟨1, "", [], 0, false⟩ : PageData).text ++ "trigger" }).2 :=
  ⟨⟨rfl, by decide⟩,
    C6_append_keyword_increases_score ⟨1, "", [], 0, false⟩ "trigger" rfl (by decide)⟩
